import Mathlib

/-!
Verification of the URL-shortener's expiry-aware upsert protocol.

The development shallowly embeds the two request-handling editions of the
service:

* the current edition (the `const DEFAULT_TIME_LIMIT` file): `upsert`
  (POST /shorten), `upsertBatch` (POST /urls/batch) and `statsActive`
  (GET /stats/active);
* the legacy edition (`index.js`, with `let DEFAULT_TIME_LIMIT`):
  `shorten_v0`, kept to examine its global-default mutation.

JavaScript numbers that can be `NaN` are modelled as `Option Int` with
`none` standing for `NaN` (all numbers reached by the handlers are integral
millisecond counts, so no other non-integer values arise).  `parseInt` is
modelled by `parseIntStr` (whitespace skip, optional sign, optional `0x`
prefix, longest digit prefix, `NaN` when no digit).  The record store is
modelled per its contract: `create` assigns `id` and `created`; `update` is
a partial update that retains unspecified fields.  Random short codes are
passed in as a generator `gen : Nat → String` consulted once per `nanoid`
call, in call order.
-/

/-- Kind of value a JSON request field can hold at the points the handlers
read: absent, a number (integral in this model), or a string. -/
inductive JVal where
  | undef : JVal
  | num : Int → JVal
  | str : String → JVal
deriving DecidableEq

/-- JavaScript truthiness of a `JVal`: `undefined`, `0` and `""` are falsy. -/
def jTruthy : JVal → Bool
  | JVal.undef => false
  | JVal.num n => n != 0
  | JVal.str s => s != ""

/-- Decimal digit value of a character, if any. -/
def decDigitVal (c : Char) : Option Nat :=
  if '0' ≤ c ∧ c ≤ '9' then some (c.toNat - '0'.toNat) else none

/-- Hexadecimal digit value of a character, if any. -/
def hexDigitVal (c : Char) : Option Nat :=
  if '0' ≤ c ∧ c ≤ '9' then some (c.toNat - '0'.toNat)
  else if 'a' ≤ c ∧ c ≤ 'f' then some (c.toNat - 'a'.toNat + 10)
  else if 'A' ≤ c ∧ c ≤ 'F' then some (c.toNat - 'A'.toNat + 10)
  else none

/-- Accumulate the longest prefix of digits (using digit-value function
`dv` and radix `radix`); `none` when no digit was consumed, as for
JavaScript `parseInt`. -/
def jsDigits (dv : Char → Option Nat) (radix : Nat) :
    List Char → Nat → Bool → Option Nat
  | [], acc, seen => if seen then some acc else none
  | c :: rest, acc, seen =>
    match dv c with
    | some d => jsDigits dv radix rest (acc * radix + d) true
    | none => if seen then some acc else none

/-- JavaScript `parseInt(s)` with no explicit radix: skip whitespace, an
optional sign, an optional `0x`/`0X` prefix (hexadecimal), then the longest
digit prefix; `none` models `NaN`. -/
def parseIntStr (s : String) : Option Int :=
  let cs := s.toList.dropWhile Char.isWhitespace
  let signed : Bool × List Char :=
    match cs with
    | '-' :: rest => (true, rest)
    | '+' :: rest => (false, rest)
    | rest => (false, rest)
  let parsed : Option Nat :=
    match signed.2 with
    | '0' :: 'x' :: rest => jsDigits hexDigitVal 16 rest 0 false
    | '0' :: 'X' :: rest => jsDigits hexDigitVal 16 rest 0 false
    | rest => jsDigits decDigitVal 10 rest 0 false
  match parsed with
  | none => none
  | some n => some (if signed.1 then -(n : Int) else (n : Int))

/-- `parseInt` applied to a request field: a number parses to itself (its
decimal printout is re-parsed), a string through `parseIntStr`, an absent
value to `NaN`. -/
def jParseInt : JVal → Option Int
  | JVal.undef => none
  | JVal.num n => some n
  | JVal.str s => parseIntStr s

/-- `a + b` where `b` may be `NaN` (`NaN` propagates). -/
def jAdd (a : Int) (b : Option Int) : Option Int :=
  b.map (fun m => a + m)

/-- `a > b` where `b` may be `NaN` (every comparison with `NaN` is false). -/
def jGtNum (a : Int) (b : Option Int) : Bool :=
  match b with
  | none => false
  | some m => decide (a > m)

/-- `x.toString()` for a possibly-`NaN` number: `NaN` prints as `"NaN"`,
integers in decimal. -/
def jnumToString : Option Int → String
  | none => "NaN"
  | some n => toString n

/-- Default time limit: 1 hour in milliseconds. -/
def DEFAULT_TIME_LIMIT : Int := 3600000

/-- The sole persistent entity.  `created` is an epoch-millisecond instant;
`expiry` is the duration stored as text (absent on records the legacy
edition created). -/
structure UrlRecord where
  id : Nat
  originalUrl : String
  shortCode : String
  created : Int
  expiry : Option String
deriving DecidableEq

/-- `existingRecords[0]` after `getFullList` filtered by exact
`originalUrl` match: the first record of the store matching the link. -/
def findExisting (store : List UrlRecord) (link : String) : Option UrlRecord :=
  (store.filter (fun r => r.originalUrl == link)).head?

/-- `expiry ? parseInt(expiry) : DEFAULT_TIME_LIMIT`: the effective expiry
duration of a request (possibly `NaN` for a truthy unparsable value). -/
def effectiveExpiryOf (e : JVal) : Option Int :=
  if jTruthy e then jParseInt e else some DEFAULT_TIME_LIMIT

/-- `parseInt(record.expiry) || DEFAULT_TIME_LIMIT`: the stored expiry
duration with fallback to the default when the field is absent, unparsable
or zero (both falsy values of `||`). -/
def storedExpiryDuration (r : UrlRecord) : Int :=
  match r.expiry with
  | none => DEFAULT_TIME_LIMIT
  | some s =>
    match parseIntStr s with
    | none => DEFAULT_TIME_LIMIT
    | some n => if n = 0 then DEFAULT_TIME_LIMIT else n

/-- Store `update(id, fields)`: partial update, unspecified fields
retained; applied to the record(s) carrying the id. -/
def updateRecord (store : List UrlRecord) (rid : Nat)
    (f : UrlRecord → UrlRecord) : List UrlRecord :=
  store.map (fun s => if s.id = rid then f s else s)

/-- Upsert outcome of the single-URL path (the handler's three reply
messages). -/
inductive UpsertAction where
  | created
  | refreshedActive
  | rotatedExpired
deriving DecidableEq

/-- Result of the single-URL upsert: the returned short code, the action
taken, and the store after the request. -/
structure UpsertResult where
  shortCode : String
  action : UpsertAction
  store : List UrlRecord
deriving DecidableEq

/-- POST /shorten of the current edition.  `code` is the one `nanoid(6)`
output the handler may draw, `fid` the id the store would assign on
create. -/
def upsert (store : List UrlRecord) (link : String) (e : JVal) (now : Int)
    (code : String) (fid : Nat) : UpsertResult :=
  let eff := effectiveExpiryOf e
  match findExisting store link with
  | some record =>
    if jGtNum now (jAdd record.created eff) then
      { shortCode := code
        action := UpsertAction.rotatedExpired
        store := updateRecord store record.id (fun s =>
          { s with shortCode := code, expiry := some (jnumToString eff) }) }
    else
      { shortCode := record.shortCode
        action := UpsertAction.refreshedActive
        store := updateRecord store record.id (fun s =>
          { s with created := now, expiry := some (jnumToString eff) }) }
  | none =>
    { shortCode := code
      action := UpsertAction.created
      store := store ++ [⟨fid, link, code, now, some (jnumToString eff)⟩] }

/-- Batch result tag: the batch endpoint reports only `created`/`updated`,
collapsing refresh and rotation into `updated`. -/
inductive BatchAction where
  | created
  | updated
deriving DecidableEq

/-- One entry of the batch response. -/
structure BatchEntry where
  link : String
  shortCode : String
  action : BatchAction
deriving DecidableEq

/-- State threaded through the batch loop: accumulated results, the store,
and the index of the next fresh short code. -/
structure BatchSt where
  results : List BatchEntry
  store : List UrlRecord
  k : Nat

/-- Association-list lookup, first match wins (JavaScript object read). -/
def alookup {α : Type} : List (String × α) → String → Option α
  | [], _ => none
  | (k', v) :: rest, k => if k' = k then some v else alookup rest k

/-- JavaScript object write `m[k] = v`: replace the first entry for `k` in
place, or append a new entry. -/
def setEntry {α : Type} : List (String × α) → String → α → List (String × α)
  | [], k, v => [(k, v)]
  | (k', v') :: rest, k, v =>
    if k' = k then (k, v) :: rest else (k', v') :: setEntry rest k v

/-- `existingMap`: map each original URL to its most recent record;
strictly greater `created` replaces, ties keep the first record seen. -/
def buildExistingMap (records : List UrlRecord) : List (String × UrlRecord) :=
  records.foldl (fun m r =>
    match alookup m r.originalUrl with
    | none => setEntry m r.originalUrl r
    | some prev =>
      if prev.created < r.created then setEntry m r.originalUrl r else m) []

/-- Body of the batch loop for one link: decide against the snapshotted
`existingMap` using the stored expiry duration, write through the store,
and append one result entry. -/
def batchStep (em : List (String × UrlRecord)) (eff : Option Int)
    (now : Int) (gen : Nat → String) (idg : Nat → Nat)
    (st : BatchSt) (link : String) : BatchSt :=
  match alookup em link with
  | some record =>
    let expiryDuration := storedExpiryDuration record
    if now > record.created + expiryDuration then
      let newShortCode := gen st.k
      { results := st.results ++ [⟨link, newShortCode, BatchAction.updated⟩]
        store := updateRecord st.store record.id (fun s =>
          { s with shortCode := newShortCode, expiry := some (jnumToString eff) })
        k := st.k + 1 }
    else
      { results := st.results ++ [⟨link, record.shortCode, BatchAction.updated⟩]
        store := updateRecord st.store record.id (fun s =>
          { s with created := now, expiry := some (jnumToString eff) })
        k := st.k }
  | none =>
    { results := st.results ++ [⟨link, gen st.k, BatchAction.created⟩]
      store := st.store ++ [⟨idg st.k, link, gen st.k, now, some (jnumToString eff)⟩]
      k := st.k + 1 }

/-- POST /urls/batch of the current edition: prefetch the records matching
any requested link, snapshot them into `existingMap`, then fold the
per-link decision over the links in input order. -/
def upsertBatch (store : List UrlRecord) (links : List String) (e : JVal)
    (now : Int) (gen : Nat → String) (idg : Nat → Nat) : BatchSt :=
  let existingRecords := store.filter (fun r => links.contains r.originalUrl)
  let existingMap := buildExistingMap existingRecords
  let eff := effectiveExpiryOf e
  links.foldl (batchStep existingMap eff now gen idg) ⟨[], store, 0⟩

/-- The activity predicate of GET /stats/active:
`created + (parseInt(expiry) || default) > now`. -/
def isActive (now : Int) (r : UrlRecord) : Bool :=
  decide (r.created + storedExpiryDuration r > now)

/-- Gregorian civil date (year, month, day) of a day count relative to
1970-01-01, as the JavaScript `Date` UTC accessors compute it. -/
def civilFromDays (z : Int) : Int × Nat × Nat :=
  let zAdj := z + 719468
  let era := Int.fdiv zAdj 146097
  let doe : Nat := (zAdj - era * 146097).toNat
  let yoe : Nat := (doe - doe / 1460 + doe / 36524 - doe / 146096) / 365
  let y : Int := (yoe : Int) + era * 400
  let doy : Nat := doe - (365 * yoe + yoe / 4 - yoe / 100)
  let mp : Nat := (5 * doy + 2) / 153
  let d : Nat := doy - (153 * mp + 2) / 5 + 1
  let m : Nat := if mp < 10 then mp + 3 else mp - 9
  (if m ≤ 2 then y + 1 else y, m, d)

/-- Zero-pad a number to at least `w` digits. -/
def padNum (w : Nat) (n : Nat) : String :=
  let s := toString n
  if s.length < w then String.mk (List.replicate (w - s.length) '0') ++ s else s

/-- `new Date(t).toISOString().split('T')[0]`: the UTC calendar date
`YYYY-MM-DD` of an epoch-millisecond instant (expanded-year form outside
0000–9999, as `toISOString` prints it). -/
def dateKey (t : Int) : String :=
  let c := civilFromDays (Int.fdiv t 86400000)
  let ys :=
    if 0 ≤ c.1 ∧ c.1 ≤ 9999 then padNum 4 c.1.toNat
    else if c.1 < 0 then "-" ++ padNum 6 (-c.1).toNat
    else "+" ++ padNum 6 c.1.toNat
  ys ++ "-" ++ padNum 2 c.2.1 ++ "-" ++ padNum 2 c.2.2

/-- The loop body of the grouping `forEach`:
`groupByDate[date] = (groupByDate[date] || 0) + 1` with `date` the first
entry for the key kept in place, new keys appended (object insertion
order). -/
def bump : List (String × Nat) → String → List (String × Nat)
  | [], k => [(k, 1)]
  | (k', c) :: rest, k =>
    if k' = k then (k', c + 1) :: rest else (k', c) :: bump rest k

/-- One step of the grouping fold over the active records. -/
def groupStep (m : List (String × Nat)) (r : UrlRecord) : List (String × Nat) :=
  bump m (dateKey r.created)

/-- One `{date, count}` object of the stats response. -/
structure StatsGroup where
  date : String
  count : Nat
deriving DecidableEq

/-- The GET /stats/active response body. -/
structure StatsResult where
  total : Nat
  groups : List StatsGroup
  activeRecords : List UrlRecord
deriving DecidableEq

/-- GET /stats/active: filter the records by the activity predicate, group
the survivors by the UTC calendar date of `created`, and report the group
counts, the total and the active records themselves. -/
def statsActive (records : List UrlRecord) (now : Int) : StatsResult :=
  let activeRecords := records.filter (fun r => isActive now r)
  let groupByDate := activeRecords.foldl groupStep []
  { total := activeRecords.length
    groups := groupByDate.map (fun p => ⟨p.1, p.2⟩)
    activeRecords := activeRecords }

/-- Number of records of `l` whose `created` falls on calendar date `k`. -/
def dcount (l : List UrlRecord) (k : String) : Nat :=
  l.countP (fun r => decide (dateKey r.created = k))

/-- Count held by a grouping map for key `k` (0 when absent). -/
def getC (m : List (String × Nat)) (k : String) : Nat :=
  (alookup m k).getD 0

/-- The keys of a grouping map. -/
def keysOf (m : List (String × Nat)) : List String :=
  m.map Prod.fst

/-- The total count held by a grouping map. -/
def sumC (m : List (String × Nat)) : Nat :=
  (m.map Prod.snd).sum

/-- Result of the legacy (`index.js`) POST /shorten: the returned code, the
value of the process-wide `DEFAULT_TIME_LIMIT` variable after the request,
and the store. -/
structure V0Result where
  shortCode : String
  defaultTimeLimit : Int
  store : List UrlRecord
deriving DecidableEq

/-- POST /shorten of the legacy edition (`index.js`): when a truthy
`expiry` is supplied the handler executes
`DEFAULT_TIME_LIMIT = expiry - now`, writing the process-wide default
(date subtraction coerces `now` to its epoch milliseconds).  An expired
record gets a new short code; an active record leads to a *new* record;
`expiry` is never stored.  `dtl0` is the default in force when the request
arrives. -/
def shorten_v0 (dtl0 : Int) (store : List UrlRecord) (link : String)
    (expiry : Option Int) (now : Int) (gen : Nat → String)
    (idg : Nat → Nat) : V0Result :=
  let dtl :=
    match expiry with
    | some n => if n ≠ 0 then n - now else dtl0
    | none => dtl0
  match findExisting store link with
  | some record =>
    if now - record.created > dtl then
      { shortCode := gen 0
        defaultTimeLimit := dtl
        store := updateRecord store record.id (fun s => { s with shortCode := gen 0 }) }
    else
      { shortCode := gen 0
        defaultTimeLimit := dtl
        store := store ++ [⟨idg 0, link, gen 0, now, none⟩] }
  | none =>
    { shortCode := gen 0
      defaultTimeLimit := dtl
      store := store ++ [⟨idg 0, link, gen 0, now, none⟩] }

/-! ### Helper lemmas on the single-URL path -/

/-- The refresh branch of `upsert`, as one equation. -/
theorem upsert_refresh_eq (store : List UrlRecord) (link : String) (e : JVal)
    (now : Int) (code : String) (fid : Nat) (r : UrlRecord)
    (hr : findExisting store link = some r)
    (hact : jGtNum now (jAdd r.created (effectiveExpiryOf e)) = false) :
    upsert store link e now code fid =
      ⟨r.shortCode, UpsertAction.refreshedActive,
        updateRecord store r.id (fun s =>
          { s with created := now, expiry := some (jnumToString (effectiveExpiryOf e)) })⟩ := by
  unfold upsert
  rw [hr]
  simp [hact]

/-- The rotation branch of `upsert`, as one equation. -/
theorem upsert_rotate_eq (store : List UrlRecord) (link : String) (e : JVal)
    (now : Int) (code : String) (fid : Nat) (r : UrlRecord)
    (hr : findExisting store link = some r)
    (hexp : jGtNum now (jAdd r.created (effectiveExpiryOf e)) = true) :
    upsert store link e now code fid =
      ⟨code, UpsertAction.rotatedExpired,
        updateRecord store r.id (fun s =>
          { s with shortCode := code, expiry := some (jnumToString (effectiveExpiryOf e)) })⟩ := by
  unfold upsert
  rw [hr]
  simp [hexp]

/-! ### The claims -/

/-- C1: when a record for the URL exists and is judged still active under
the effective TTL at `now`, POST /shorten returns the same short code with
action RefreshedActive, sets the record's `created` to `now` and its
`expiry` to the effective TTL, and creates no new record. -/
theorem c1_refresh_keeps_shortcode (store : List UrlRecord) (link : String)
    (e : JVal) (now : Int) (code : String) (fid : Nat) (r : UrlRecord)
    (hr : findExisting store link = some r)
    (hact : jGtNum now (jAdd r.created (effectiveExpiryOf e)) = false) :
    (upsert store link e now code fid).shortCode = r.shortCode ∧
    (upsert store link e now code fid).action = UpsertAction.refreshedActive ∧
    (upsert store link e now code fid).store =
      store.map (fun s => if s.id = r.id then
        { s with created := now,
                 expiry := some (jnumToString (effectiveExpiryOf e)) } else s) ∧
    (upsert store link e now code fid).store.length = store.length := by
  rw [upsert_refresh_eq store link e now code fid r hr hact]
  refine ⟨rfl, rfl, rfl, ?_⟩
  simp [updateRecord]

/-- Witness for C1 at a concrete store and request. -/
theorem c1_refresh_keeps_shortcode_witness :
    (upsert [⟨1, "u", "abc", 0, some "1000"⟩] "u" JVal.undef 10 "zzz" 7).shortCode = "abc" ∧
    (upsert [⟨1, "u", "abc", 0, some "1000"⟩] "u" JVal.undef 10 "zzz" 7).action =
      UpsertAction.refreshedActive ∧
    (upsert [⟨1, "u", "abc", 0, some "1000"⟩] "u" JVal.undef 10 "zzz" 7).store.length = 1 := by
  have h := c1_refresh_keeps_shortcode [⟨1, "u", "abc", 0, some "1000"⟩] "u"
    JVal.undef 10 "zzz" 7 ⟨1, "u", "abc", 0, some "1000"⟩ rfl rfl
  exact ⟨h.1, h.2.1, h.2.2.2⟩

/-- C6: when the existing record is expired under the effective TTL
(`now > created + effectiveExpiry`), POST /shorten rotates: it returns the
freshly generated code, overwrites the record's `shortCode` and `expiry`,
and leaves every record's `created` (and `id`, `originalUrl`) unchanged. -/
theorem c6_rotation_keeps_created (store : List UrlRecord) (link : String)
    (e : JVal) (now : Int) (code : String) (fid : Nat) (r : UrlRecord)
    (hr : findExisting store link = some r)
    (hexp : jGtNum now (jAdd r.created (effectiveExpiryOf e)) = true) :
    (upsert store link e now code fid).shortCode = code ∧
    (upsert store link e now code fid).action = UpsertAction.rotatedExpired ∧
    (upsert store link e now code fid).store =
      store.map (fun s => if s.id = r.id then
        { s with shortCode := code,
                 expiry := some (jnumToString (effectiveExpiryOf e)) } else s) ∧
    ∀ s ∈ (upsert store link e now code fid).store,
      ∃ t ∈ store, s.created = t.created ∧ s.id = t.id ∧ s.originalUrl = t.originalUrl := by
  rw [upsert_rotate_eq store link e now code fid r hr hexp]
  refine ⟨rfl, rfl, rfl, ?_⟩
  intro s hs
  simp only [updateRecord, List.mem_map] at hs
  obtain ⟨t, ht, hts⟩ := hs
  refine ⟨t, ht, ?_⟩
  subst hts
  by_cases hid : t.id = r.id <;> simp [hid]

/-- Witness for C6 at a concrete store and request. -/
theorem c6_rotation_keeps_created_witness :
    (upsert [⟨1, "u", "abc", 0, some "1000"⟩] "u" JVal.undef 4000000 "zzz" 7).shortCode = "zzz" ∧
    (upsert [⟨1, "u", "abc", 0, some "1000"⟩] "u" JVal.undef 4000000 "zzz" 7).action =
      UpsertAction.rotatedExpired ∧
    (upsert [⟨1, "u", "abc", 0, some "1000"⟩] "u" JVal.undef 4000000 "zzz" 7).store =
      [⟨1, "u", "zzz", 0, some "3600000"⟩] := by
  have h := c6_rotation_keeps_created [⟨1, "u", "abc", 0, some "1000"⟩] "u"
    JVal.undef 4000000 "zzz" 7 ⟨1, "u", "abc", 0, some "1000"⟩ rfl rfl
  exact ⟨h.1, h.2.1, by rw [h.2.2.1]; rfl⟩

/-- C3 (code bug in the legacy edition): `index.js`'s POST /shorten handler
executes `DEFAULT_TIME_LIMIT = expiry - now` when a truthy `expiry` is
supplied; at `expiry = 5000`, `now = 1000000` the process-wide default
becomes `-995000`, no longer the configured 1 hour. -/
theorem c3_default_mutated_by_handler :
    (shorten_v0 3600000 [] "u" (some 5000) 1000000
        (fun _ => "c0") (fun _ => 1)).defaultTimeLimit = -995000 ∧
    (-995000 : Int) ≠ DEFAULT_TIME_LIMIT := by
  exact ⟨rfl, by decide⟩

/-- C4 counterexample: a truthy caller-supplied `expiry` that does not
parse (here the string "abc") does not fall back to the default: the
effective TTL becomes `NaN` and the literal string "NaN" is persisted in
the created record's `expiry` field. -/
theorem c4_counterexample_nan_persisted :
    effectiveExpiryOf (JVal.str "abc") ≠ some DEFAULT_TIME_LIMIT ∧
    (upsert [] "u" (JVal.str "abc") 0 "c0" 1).store = [⟨1, "u", "c0", 0, some "NaN"⟩] := by
  exact ⟨by decide, rfl⟩

/-- C4 amended: a stored `expiry` that is absent or unparsable falls back
to the default in the decision, and a falsy caller value (absent, `0`,
`""`) falls back to the default; but a truthy unparsable caller value
yields `NaN`: the request still completes, the decision then takes the
refresh branch (comparisons with `NaN` are false), and "NaN" is written to
the `expiry` field. -/
theorem c4_parse_fallback_amended (s : String) (r : UrlRecord)
    (hs : s ≠ "") (hp : parseIntStr s = none)
    (hr : r.expiry = none ∨ ∃ t, r.expiry = some t ∧ parseIntStr t = none) :
    storedExpiryDuration r = DEFAULT_TIME_LIMIT ∧
    effectiveExpiryOf JVal.undef = some DEFAULT_TIME_LIMIT ∧
    effectiveExpiryOf (JVal.num 0) = some DEFAULT_TIME_LIMIT ∧
    effectiveExpiryOf (JVal.str "") = some DEFAULT_TIME_LIMIT ∧
    effectiveExpiryOf (JVal.str s) = none ∧
    ∀ store link now code fid rec, findExisting store link = some rec →
      (upsert store link (JVal.str s) now code fid).action = UpsertAction.refreshedActive ∧
      (upsert store link (JVal.str s) now code fid).store =
        updateRecord store rec.id (fun t => { t with created := now, expiry := some "NaN" }) := by
  have heff : effectiveExpiryOf (JVal.str s) = none := by
    simp [effectiveExpiryOf, jTruthy, jParseInt, hp, hs]
  refine ⟨?_, rfl, rfl, rfl, heff, ?_⟩
  · rcases hr with h | ⟨t, ht, hpt⟩
    · simp [storedExpiryDuration, h]
    · simp [storedExpiryDuration, ht, hpt]
  · intro store link now code fid rec hrec
    have hact : jGtNum now (jAdd rec.created (effectiveExpiryOf (JVal.str s))) = false := by
      rw [heff]; rfl
    rw [upsert_refresh_eq store link (JVal.str s) now code fid rec hrec hact]
    refine ⟨rfl, ?_⟩
    show updateRecord store rec.id (fun t =>
      { t with created := now,
               expiry := some (jnumToString (effectiveExpiryOf (JVal.str s))) }) = _
    rw [heff]
    rfl

/-- Witness for the amended C4 at `s = "abc"` and a record with no stored
`expiry`. -/
theorem c4_parse_fallback_amended_witness :
    storedExpiryDuration ⟨1, "u", "c", 0, none⟩ = DEFAULT_TIME_LIMIT ∧
    effectiveExpiryOf (JVal.str "abc") = none := by
  have h := c4_parse_fallback_amended "abc" ⟨1, "u", "c", 0, none⟩
    (by decide) rfl (Or.inl rfl)
  exact ⟨h.1, h.2.2.2.2.1⟩

/-- C5 counterexample: at the exact boundary `created + effectiveExpiry =
now` (record created at 0 with TTL 1000, `now = 1000`) the upsert takes
the refresh branch, but the stats activity predicate does *not* count the
record as active (strict `created + expiry > now` fails at equality). -/
theorem c5_counterexample_boundary_not_active :
    jAdd (0 : Int) (effectiveExpiryOf (JVal.num 1000)) = some 1000 ∧
    (upsert [⟨1, "u", "abc", 0, some "1000"⟩] "u" (JVal.num 1000) 1000 "zzz" 7).action =
      UpsertAction.refreshedActive ∧
    isActive 1000 ⟨1, "u", "abc", 0, some "1000"⟩ = false := by
  exact ⟨rfl, rfl, rfl⟩

/-- C5 amended: at `created + effectiveExpiry = now` exactly, the upsert
decision takes the refresh branch (strict `now > expiryTime` fails) and
keeps the short code, but the stats activity predicate judges any record
with `created + storedExpiry = now` as *not* active (strict `>`). -/
theorem c5_boundary_amended (store : List UrlRecord) (link : String)
    (e : JVal) (now : Int) (code : String) (fid : Nat) (r : UrlRecord)
    (hr : findExisting store link = some r)
    (hb : jAdd r.created (effectiveExpiryOf e) = some now) :
    (upsert store link e now code fid).action = UpsertAction.refreshedActive ∧
    (upsert store link e now code fid).shortCode = r.shortCode ∧
    ∀ rec : UrlRecord, rec.created + storedExpiryDuration rec = now →
      isActive now rec = false := by
  have hact : jGtNum now (jAdd r.created (effectiveExpiryOf e)) = false := by
    rw [hb]
    simp [jGtNum]
  rw [upsert_refresh_eq store link e now code fid r hr hact]
  refine ⟨rfl, rfl, ?_⟩
  intro rec hrec
  simp [isActive, hrec]

/-- Witness for the amended C5 at the concrete boundary instant. -/
theorem c5_boundary_amended_witness :
    (upsert [⟨1, "u", "abc", 0, some "1000"⟩] "u" (JVal.num 1000) 1000 "zzz" 7).action =
      UpsertAction.refreshedActive ∧
    (upsert [⟨1, "u", "abc", 0, some "1000"⟩] "u" (JVal.num 1000) 1000 "zzz" 7).shortCode =
      "abc" ∧
    isActive 1000 ⟨2, "v", "d", 0, some "1000"⟩ = false := by
  have h := c5_boundary_amended [⟨1, "u", "abc", 0, some "1000"⟩] "u"
    (JVal.num 1000) 1000 "zzz" 7 ⟨1, "u", "abc", 0, some "1000"⟩ rfl rfl
  exact ⟨h.1, h.2.1, h.2.2 ⟨2, "v", "d", 0, some "1000"⟩ rfl⟩

/-! ### Batch-path lemmas and claims -/

/-- Each batch loop iteration appends exactly one result entry carrying the
processed link. -/
theorem batchStep_results_append (em : List (String × UrlRecord))
    (eff : Option Int) (now : Int) (gen : Nat → String) (idg : Nat → Nat)
    (st : BatchSt) (link : String) :
    ∃ c a, (batchStep em eff now gen idg st link).results =
      st.results ++ [⟨link, c, a⟩] := by
  unfold batchStep
  cases halo : alookup em link with
  | none => exact ⟨gen st.k, BatchAction.created, rfl⟩
  | some record =>
    dsimp only
    by_cases hexp : now > record.created + storedExpiryDuration record
    · rw [if_pos hexp]
      exact ⟨gen st.k, BatchAction.updated, rfl⟩
    · rw [if_neg hexp]
      exact ⟨record.shortCode, BatchAction.updated, rfl⟩

/-- Folding the batch loop appends, in order, one entry per input link. -/
theorem foldl_batchStep_links (em : List (String × UrlRecord))
    (eff : Option Int) (now : Int) (gen : Nat → String) (idg : Nat → Nat) :
    ∀ (links : List String) (st : BatchSt),
      ((links.foldl (batchStep em eff now gen idg) st).results).map BatchEntry.link =
        st.results.map BatchEntry.link ++ links := by
  intro links
  induction links with
  | nil => intro st; simp
  | cons l ls ih =>
    intro st
    rw [List.foldl_cons, ih]
    obtain ⟨c, a, hres⟩ := batchStep_results_append em eff now gen idg st l
    rw [hres]
    simp

/-- C8: the batch response is in one-to-one order-preserving
correspondence with the input links, duplicates included, for every store
(hence regardless of the order the store returns existing records in). -/
theorem c8_batch_order_preserved (store : List UrlRecord) (links : List String)
    (e : JVal) (now : Int) (gen : Nat → String) (idg : Nat → Nat) :
    ((upsertBatch store links e now gen idg).results).map BatchEntry.link = links := by
  unfold upsertBatch
  rw [foldl_batchStep_links]
  rfl

/-- C7: a batch containing the same previously-unseen URL twice produces
two Created entries, drawing the first and second generator outputs: the
second occurrence does not observe the first occurrence's write, because
the existing-record map is snapshotted before the loop. -/
theorem c7_batch_snapshot_isolation (store : List UrlRecord) (u : String)
    (e : JVal) (now : Int) (gen : Nat → String) (idg : Nat → Nat)
    (h : ∀ r ∈ store, r.originalUrl ≠ u) :
    (upsertBatch store [u, u] e now gen idg).results =
      [⟨u, gen 0, BatchAction.created⟩, ⟨u, gen 1, BatchAction.created⟩] := by
  have hfil : store.filter (fun r => [u, u].contains r.originalUrl) = [] := by
    rw [List.filter_eq_nil_iff]
    intro r hr
    have hbe : (r.originalUrl == u) = false := by
      simp [h r hr]
    simp [List.contains, List.elem, hbe]
  unfold upsertBatch
  rw [hfil]
  simp [buildExistingMap, batchStep, alookup]

/-- Witness for C7: two fresh codes for a duplicated new URL, with a
non-matching record already in the store. -/
theorem c7_batch_snapshot_isolation_witness :
    (∀ r ∈ [(⟨5, "x", "c", 0, none⟩ : UrlRecord)], r.originalUrl ≠ "u") ∧
    (upsertBatch [⟨5, "x", "c", 0, none⟩] ["u", "u"] JVal.undef 0
        (fun k => toString k) (fun k => k)).results =
      [⟨"u", "0", BatchAction.created⟩, ⟨"u", "1", BatchAction.created⟩] :=
  ⟨by decide, c7_batch_snapshot_isolation [⟨5, "x", "c", 0, none⟩] "u"
    JVal.undef 0 (fun k => toString k) (fun k => k) (by decide)⟩

/-- C2 counterexample: store one record for "u" with stored expiry 1000,
created 0; request TTL 10000000 at `now = 5000`.  Under the caller-supplied
effective TTL the record is active (first conjunct), and the single-URL
path indeed refreshes and keeps "abc" (last conjuncts) — but the batch
path rotates, returning the freshly generated code: its decision was made
against the stored expiry, not the caller-supplied TTL. -/
theorem c2_counterexample_batch_uses_stored :
    jGtNum 5000 (jAdd (0 : Int) (effectiveExpiryOf (JVal.num 10000000))) = false ∧
    (upsertBatch [⟨1, "u", "abc", 0, some "1000"⟩] ["u"] (JVal.num 10000000) 5000
        (fun _ => "fresh1") (fun _ => 99)).results =
      [⟨"u", "fresh1", BatchAction.updated⟩] ∧
    (upsertBatch [⟨1, "u", "abc", 0, some "1000"⟩] ["u"] (JVal.num 10000000) 5000
        (fun _ => "fresh1") (fun _ => 99)).results ≠
      [⟨"u", "abc", BatchAction.updated⟩] ∧
    (upsert [⟨1, "u", "abc", 0, some "1000"⟩] "u" (JVal.num 10000000) 5000
        "fresh1" 99).shortCode = "abc" ∧
    (upsert [⟨1, "u", "abc", 0, some "1000"⟩] "u" (JVal.num 10000000) 5000
        "fresh1" 99).action = UpsertAction.refreshedActive := by
  exact ⟨rfl, rfl, by decide, rfl, rfl⟩

/-- The batch loop's response entries (and generator cursor) never depend
on the effective expiry it threads: that value is only written to the
store, never read by a decision. -/
theorem foldl_batchStep_results_eff_invariant (em : List (String × UrlRecord))
    (eff eff' : Option Int) (now : Int) (gen : Nat → String) (idg : Nat → Nat) :
    ∀ (links : List String) (st st' : BatchSt),
      st.results = st'.results → st.k = st'.k →
      (links.foldl (batchStep em eff now gen idg) st).results =
        (links.foldl (batchStep em eff' now gen idg) st').results := by
  intro links
  induction links with
  | nil =>
    intro st st' hres hk
    simpa using hres
  | cons l ls ih =>
    intro st st' hres hk
    rw [List.foldl_cons, List.foldl_cons]
    have hres' : (batchStep em eff now gen idg st l).results =
        (batchStep em eff' now gen idg st' l).results := by
      cases halo : alookup em l with
      | none => simp [batchStep, halo, hres, hk]
      | some r =>
        by_cases hexp : now > r.created + storedExpiryDuration r
        · simp [batchStep, halo, hexp, hres, hk]
        · simp [batchStep, halo, hexp, hres, hk]
    have hk' : (batchStep em eff now gen idg st l).k =
        (batchStep em eff' now gen idg st' l).k := by
      cases halo : alookup em l with
      | none => simp [batchStep, halo, hk]
      | some r =>
        by_cases hexp : now > r.created + storedExpiryDuration r
        · simp [batchStep, halo, hexp, hk]
        · simp [batchStep, halo, hexp, hk]
    exact ih _ _ hres' hk'

/-- C2 amended: for every URL of every batch request that has an existing
record in the snapshotted map — at any point of the loop — the
expired-vs-active decision judges `created` against
`parseInt(record.expiry) || default`, the stored expiry with default
fallback, and the caller-supplied expiry determines only the `expiry`
value written back to the store (in both branches); consequently the
batch response of the whole endpoint is identical for any two
caller-supplied expiry values. -/
theorem c2_amended_batch_decision_stored :
    (∀ (em : List (String × UrlRecord)) (e : JVal) (now : Int)
        (gen : Nat → String) (idg : Nat → Nat) (st : BatchSt)
        (link : String) (r : UrlRecord),
      alookup em link = some r →
      (now > r.created + storedExpiryDuration r →
        (batchStep em (effectiveExpiryOf e) now gen idg st link).results =
          st.results ++ [⟨link, gen st.k, BatchAction.updated⟩] ∧
        (batchStep em (effectiveExpiryOf e) now gen idg st link).store =
          updateRecord st.store r.id (fun s =>
            { s with shortCode := gen st.k,
                     expiry := some (jnumToString (effectiveExpiryOf e)) })) ∧
      (¬ now > r.created + storedExpiryDuration r →
        (batchStep em (effectiveExpiryOf e) now gen idg st link).results =
          st.results ++ [⟨link, r.shortCode, BatchAction.updated⟩] ∧
        (batchStep em (effectiveExpiryOf e) now gen idg st link).store =
          updateRecord st.store r.id (fun s =>
            { s with created := now,
                     expiry := some (jnumToString (effectiveExpiryOf e)) }))) ∧
    (∀ (store : List UrlRecord) (links : List String) (e e' : JVal)
        (now : Int) (gen : Nat → String) (idg : Nat → Nat),
      (upsertBatch store links e now gen idg).results =
        (upsertBatch store links e' now gen idg).results) := by
  constructor
  · intro em e now gen idg st link r halo
    constructor
    · intro hexp
      simp only [batchStep, halo]
      rw [if_pos hexp]
      exact ⟨rfl, rfl⟩
    · intro hexp
      simp only [batchStep, halo]
      rw [if_neg hexp]
      exact ⟨rfl, rfl⟩
  · intro store links e e' now gen idg
    simp only [upsertBatch]
    exact foldl_batchStep_results_eff_invariant
      (buildExistingMap (store.filter (fun r => links.contains r.originalUrl)))
      (effectiveExpiryOf e) (effectiveExpiryOf e') now gen idg
      links ⟨[], store, 0⟩ ⟨[], store, 0⟩ rfl rfl

/-- C10: a stored `expiry` of "0" is falsy for `||`, so both the stats
activity predicate and the batch decision use the process default of one
hour: the record stays active throughout the default window rather than
being immediately expired, and while it is, the batch path refreshes it
keeping its code. -/
theorem c10_zero_expiry_uses_default (r : UrlRecord) (now : Int)
    (h : r.expiry = some "0") :
    storedExpiryDuration r = DEFAULT_TIME_LIMIT ∧
    isActive now r = decide (r.created + DEFAULT_TIME_LIMIT > now) ∧
    ∀ em eff gen idg st link, alookup em link = some r →
      ¬ now > r.created + DEFAULT_TIME_LIMIT →
      (batchStep em eff now gen idg st link).results =
        st.results ++ [⟨link, r.shortCode, BatchAction.updated⟩] := by
  have hdur : storedExpiryDuration r = DEFAULT_TIME_LIMIT := by
    have h0 : parseIntStr "0" = some 0 := rfl
    simp [storedExpiryDuration, h, h0]
  refine ⟨hdur, ?_, ?_⟩
  · rw [isActive, hdur]
  · intro em eff gen idg st link halo hnot
    simp only [batchStep, halo, hdur]
    rw [if_neg hnot]

/-- Witness for C10: a record created at 0 with stored expiry "0" is
judged by the default TTL and refreshed by the batch step at `now = 5`. -/
theorem c10_zero_expiry_uses_default_witness :
    storedExpiryDuration ⟨1, "u", "c", 0, some "0"⟩ = DEFAULT_TIME_LIMIT ∧
    isActive 5 ⟨1, "u", "c", 0, some "0"⟩ =
      decide ((⟨1, "u", "c", 0, some "0"⟩ : UrlRecord).created + DEFAULT_TIME_LIMIT > 5) ∧
    (batchStep [("u", ⟨1, "u", "c", 0, some "0"⟩)] (some 7) 5
        (fun k => toString k) (fun k => k) ⟨[], [], 0⟩ "u").results =
      [⟨"u", "c", BatchAction.updated⟩] := by
  have h := c10_zero_expiry_uses_default ⟨1, "u", "c", 0, some "0"⟩ 5 rfl
  exact ⟨h.1, h.2.1,
    h.2.2 [("u", ⟨1, "u", "c", 0, some "0"⟩)] (some 7)
      (fun k => toString k) (fun k => k) ⟨[], [], 0⟩ "u" rfl (by decide)⟩

/-! ### Grouping lemmas for the stats report -/

/-- `bump` increments the count held for its key. -/
theorem alookup_bump_self (m : List (String × Nat)) (k : String) :
    alookup (bump m k) k = some ((alookup m k).getD 0 + 1) := by
  induction m with
  | nil => simp [bump, alookup]
  | cons p rest ih =>
    obtain ⟨k', c⟩ := p
    by_cases h : k' = k
    · subst h
      simp [bump, alookup]
    · simp [bump, alookup, h, ih]

/-- `bump` leaves every other key's count unchanged. -/
theorem alookup_bump_other (m : List (String × Nat)) (k a : String)
    (h : a ≠ k) : alookup (bump m k) a = alookup m a := by
  induction m with
  | nil => simp [bump, alookup, Ne.symm h]
  | cons p rest ih =>
    obtain ⟨k', c⟩ := p
    by_cases hk : k' = k
    · subst hk
      simp [bump, alookup, Ne.symm h]
    · by_cases ha : k' = a
      · subst ha
        simp [bump, alookup, hk]
      · simp [bump, alookup, hk, ha, ih]

/-- The count change of one `bump`, key by key. -/
theorem getC_bump (m : List (String × Nat)) (k a : String) :
    getC (bump m k) a = getC m a + (if k = a then 1 else 0) := by
  by_cases h : k = a
  · subst h
    simp [getC, alookup_bump_self]
  · rw [getC, alookup_bump_other m k a (Ne.symm h), if_neg h]
    rfl

/-- Folding the grouping step counts, for each date, exactly the records
of the list created on that date. -/
theorem getC_groupfold (l : List UrlRecord) :
    ∀ (m : List (String × Nat)) (a : String),
      getC (l.foldl groupStep m) a = getC m a + dcount l a := by
  induction l with
  | nil => intro m a; simp [dcount]
  | cons r rest ih =>
    intro m a
    rw [List.foldl_cons, ih, groupStep, getC_bump]
    simp only [dcount, List.countP_cons]
    by_cases h : dateKey r.created = a
    · simp [h]
      omega
    · simp [h]

/-- One `bump` adds exactly one to the total count held by the map. -/
theorem sumC_bump (m : List (String × Nat)) (k : String) :
    sumC (bump m k) = sumC m + 1 := by
  induction m with
  | nil => simp [bump, sumC]
  | cons p rest ih =>
    obtain ⟨k', c⟩ := p
    by_cases h : k' = k
    · subst h
      simp [bump, sumC]
      omega
    · simp [bump, sumC, h]
      simp [sumC] at ih
      omega

/-- Folding the grouping step adds the list's length to the total count. -/
theorem sumC_groupfold (l : List UrlRecord) :
    ∀ m : List (String × Nat),
      sumC (l.foldl groupStep m) = sumC m + l.length := by
  induction l with
  | nil => intro m; simp
  | cons r rest ih =>
    intro m
    rw [List.foldl_cons, ih, groupStep, sumC_bump]
    simp
    omega

/-- The keys after a `bump` are the previous keys plus the bumped key. -/
theorem mem_keys_bump (m : List (String × Nat)) (k a : String) :
    a ∈ keysOf (bump m k) ↔ a ∈ keysOf m ∨ a = k := by
  induction m with
  | nil => simp [bump, keysOf]
  | cons p rest ih =>
    obtain ⟨k', c⟩ := p
    by_cases h : k' = k
    · subst h
      simp [bump, keysOf]
      tauto
    · simp [bump, keysOf, h] at ih ⊢
      tauto

/-- `bump` keeps the keys without duplicates. -/
theorem nodup_keys_bump (m : List (String × Nat)) (k : String)
    (h : (keysOf m).Nodup) : (keysOf (bump m k)).Nodup := by
  induction m with
  | nil => simp [bump, keysOf]
  | cons p rest ih =>
    obtain ⟨k', c⟩ := p
    simp only [keysOf, List.map_cons, List.nodup_cons] at h
    by_cases hk : k' = k
    · subst hk
      simpa [bump, keysOf, List.nodup_cons] using h
    · have hrest := ih h.2
      simp only [bump, if_neg hk, keysOf, List.map_cons, List.nodup_cons]
      refine ⟨?_, hrest⟩
      intro hmem
      rcases (mem_keys_bump rest k k').mp hmem with hin | heq
      · exact h.1 hin
      · exact hk heq

/-- The keys after folding the grouping step: the initial keys together
with the dates of the folded records. -/
theorem mem_keys_groupfold (l : List UrlRecord) :
    ∀ (m : List (String × Nat)) (a : String),
      a ∈ keysOf (l.foldl groupStep m) ↔
        a ∈ keysOf m ∨ ∃ r ∈ l, dateKey r.created = a := by
  induction l with
  | nil => intro m a; simp
  | cons r rest ih =>
    intro m a
    rw [List.foldl_cons, ih, groupStep, mem_keys_bump]
    constructor
    · rintro ((hm | heq) | ⟨t, ht, hdt⟩)
      · exact Or.inl hm
      · exact Or.inr ⟨r, List.mem_cons_self r rest, heq.symm⟩
      · exact Or.inr ⟨t, List.mem_cons_of_mem r ht, hdt⟩
    · rintro (hm | ⟨t, ht, hdt⟩)
      · exact Or.inl (Or.inl hm)
      · rcases List.mem_cons.mp ht with rfl | htr
        · exact Or.inl (Or.inr hdt.symm)
        · exact Or.inr ⟨t, htr, hdt⟩

/-- Folding the grouping step keeps the keys without duplicates. -/
theorem nodup_keys_groupfold (l : List UrlRecord) :
    ∀ m : List (String × Nat),
      (keysOf m).Nodup → (keysOf (l.foldl groupStep m)).Nodup := by
  induction l with
  | nil => intro m h; simpa using h
  | cons r rest ih =>
    intro m h
    rw [List.foldl_cons]
    exact ih _ (nodup_keys_bump m (dateKey r.created) h)

/-- In a map whose keys are without duplicates, membership of an entry
determines the lookup. -/
theorem alookup_eq_of_mem_nodup (m : List (String × Nat)) (k : String) (c : Nat)
    (hnd : (keysOf m).Nodup) (hm : (k, c) ∈ m) : alookup m k = some c := by
  induction m with
  | nil => cases hm
  | cons p rest ih =>
    obtain ⟨k', c'⟩ := p
    simp only [keysOf, List.map_cons, List.nodup_cons] at hnd
    rcases List.mem_cons.mp hm with heq | hrest
    · obtain ⟨rfl, rfl⟩ := Prod.mk.injEq .. ▸ And.intro (congrArg Prod.fst heq) (congrArg Prod.snd heq)
      simp [alookup]
    · by_cases hk : k' = k
      · subst hk
        exfalso
        exact hnd.1 (List.mem_map.mpr ⟨(k', c), hrest, rfl⟩)
      · simp only [alookup, if_neg hk]
        exact ih hnd.2 hrest

/-- C9: the stats report's `activeRecords` are exactly the records
satisfying the activity predicate; every group's count is the number of
active records created on that UTC calendar date; every active record's
date appears as a group and every group's date is some active record's
date, each date at most once; and `total` is the sum of the group
counts. -/
theorem c9_stats_partition (records : List UrlRecord) (now : Int) :
    (statsActive records now).activeRecords =
      records.filter (fun r => isActive now r) ∧
    (statsActive records now).total =
      (((statsActive records now).groups).map StatsGroup.count).sum ∧
    (∀ g ∈ (statsActive records now).groups,
      g.count = dcount (statsActive records now).activeRecords g.date ∧
      ∃ r ∈ (statsActive records now).activeRecords, dateKey r.created = g.date) ∧
    (∀ r ∈ (statsActive records now).activeRecords,
      ∃ g ∈ (statsActive records now).groups, g.date = dateKey r.created) ∧
    (((statsActive records now).groups).map StatsGroup.date).Nodup := by
  have hact : (statsActive records now).activeRecords =
      records.filter (fun r => isActive now r) := rfl
  have hgroups : (statsActive records now).groups =
      ((records.filter (fun r => isActive now r)).foldl groupStep []).map
        (fun p => ⟨p.1, p.2⟩) := rfl
  have htotal : (statsActive records now).total =
      (records.filter (fun r => isActive now r)).length := rfl
  set l := records.filter (fun r => isActive now r) with hl
  set m := l.foldl groupStep [] with hmdef
  have hnodupkeys : (keysOf m).Nodup := by
    apply nodup_keys_groupfold
    simp [keysOf]
  refine ⟨hact, ?_, ?_, ?_, ?_⟩
  · rw [htotal, hgroups]
    have : (m.map (fun p : String × Nat => (⟨p.1, p.2⟩ : StatsGroup))).map
        StatsGroup.count = m.map Prod.snd := by
      rw [List.map_map]
      rfl
    rw [this]
    have hsum := sumC_groupfold l []
    rw [← hmdef] at hsum
    simp [sumC] at hsum
    omega
  · intro g hg
    rw [hgroups] at hg
    obtain ⟨p, hp, hpg⟩ := List.mem_map.mp hg
    constructor
    · have hlook : alookup m p.1 = some p.2 :=
        alookup_eq_of_mem_nodup m p.1 p.2 hnodupkeys (by simpa using hp)
      have hgetc : getC m p.1 = p.2 := by
        simp [getC, hlook]
      have hfold := getC_groupfold l [] p.1
      have hget0 : getC ([] : List (String × Nat)) p.1 = 0 := rfl
      rw [hget0, ← hmdef] at hfold
      rw [← hpg]
      dsimp only
      rw [hact]
      omega
    · have hkey : p.1 ∈ keysOf m := List.mem_map.mpr ⟨p, hp, rfl⟩
      have := (mem_keys_groupfold l [] p.1).mp hkey
      rcases this with hin | ⟨r, hr, hdr⟩
      · simp [keysOf] at hin
      · refine ⟨r, ?_, ?_⟩
        · rw [hact]
          exact hr
        · rw [← hpg]
          exact hdr
  · intro r hr
    rw [hact] at hr
    have hkey : dateKey r.created ∈ keysOf m :=
      (mem_keys_groupfold l [] (dateKey r.created)).mpr
        (Or.inr ⟨r, hr, rfl⟩)
    obtain ⟨p, hp, hpk⟩ := List.mem_map.mp hkey
    refine ⟨⟨p.1, p.2⟩, ?_, ?_⟩
    · rw [hgroups]
      exact List.mem_map.mpr ⟨p, hp, rfl⟩
    · simpa using hpk
  · rw [hgroups]
    have : ((m.map (fun p : String × Nat => (⟨p.1, p.2⟩ : StatsGroup))).map
        StatsGroup.date) = keysOf m := by
      rw [List.map_map]
      rfl
    rw [this]
    exact hnodupkeys
